import Mathlib

/-!
# Verification of the bencode integer decoder (`src/parsers/integer.rs`)

This file gives a shallow embedding of the integer decoder of
torrust-bencode2json and proves or refutes the specification claims about
it.  The decoder reads a bencoded integer `i<sign?><digits>e` from a byte
source and writes the ASCII sign/digit bytes verbatim to a byte sink.

Bytes are modelled as natural numbers (the `u8` values); the byte source is
a finite list of bytes followed by a distinguished end event (end-of-stream
or a non-eof I/O failure); the byte sink is the list of bytes written so
far.  The parser of `integer.rs` becomes a structurally recursive function
over the remaining input list, so every definition below is executable.
-/

namespace Bencode

/-- Modelled from the spec: the terminator byte ending integers.  The
constant `BENCODE_END_INTEGER` lives in `parsers/mod.rs`, which is not part
of the available sources; the grammar `i<sign?><digits>e` of the spec fixes
it to the ASCII byte of the letter e, 101. -/
def BENCODE_END_INTEGER : Nat := 101

/-- Modelled from the spec: how a read past the supplied bytes ends.  The
byte source (`rw::byte_reader::ByteReader`, not part of the available
sources) either reports end-of-stream (`io::ErrorKind::UnexpectedEof`) or
fails with some other I/O error, carried here as an abstract numeric
payload. -/
inductive ReadEnd where
  | eof : ReadEnd
  | ioError : Nat → ReadEnd
deriving DecidableEq, Repr

/-- Modelled from the spec: the read-side diagnostic snapshot
(`parsers::error::ReadContext`): the offending byte if any, the input byte
counter, and the captured trailing bytes.  The bounded eviction of the
capture window lives in the missing `rw` module and is diagnostic-only, so
the window is modelled as the full sequence of consumed bytes. -/
structure ReadContext where
  byte : Option Nat
  pos : Nat
  latestBytes : List Nat
deriving DecidableEq, Repr

/-- Modelled from the spec: the write-side diagnostic snapshot
(`parsers::error::WriteContext`), mirror image of `ReadContext` for the
byte sink. -/
structure WriteContext where
  byte : Option Nat
  pos : Nat
  latestBytes : List Nat
deriving DecidableEq, Repr

/-- Modelled from the spec: the error variants of `parsers::error::Error`
reachable from the integer decoder, as named in `integer.rs` and §7 of the
spec.  `ioFailure` models `Error::Io`, wrapping the non-eof I/O failure
payload. -/
inductive Error where
  | unexpectedByteParsingInteger : ReadContext → WriteContext → Error
  | leadingZerosInIntegersNotAllowed : ReadContext → WriteContext → Error
  | unexpectedEndOfInputParsingInteger : ReadContext → WriteContext → Error
  | ioFailure : Nat → Error
deriving DecidableEq, Repr

/-- `true` exactly on the `leadingZerosInIntegersNotAllowed` error. -/
def Error.isLeadingZeros : Error → Bool
  | .leadingZerosInIntegersNotAllowed _ _ => true
  | _ => false

/-- `true` exactly on the `unexpectedByteParsingInteger` error. -/
def Error.isUnexpectedByte : Error → Bool
  | .unexpectedByteParsingInteger _ _ => true
  | _ => false

/-- `true` exactly on the `unexpectedEndOfInputParsingInteger` error. -/
def Error.isUnexpectedEnd : Error → Bool
  | .unexpectedEndOfInputParsingInteger _ _ => true
  | _ => false

/-- `true` when a parse result is the given error kind (and `false` on
success). -/
def resultIs (p : Error → Bool) : Except Error Unit → Bool
  | .error e => p e
  | .ok _ => false

/-- `StateExpecting` of `integer.rs` lines 16-21: the current state of the
integer automaton. -/
inductive StateExpecting where
  | start : StateExpecting
  | digitOrSign : StateExpecting
  | digitAfterSign : StateExpecting
  | digitOrEnd : StateExpecting
deriving DecidableEq, Repr

/-- `char.is_ascii_digit()` on a byte: ASCII codes 48 to 57. -/
def is_ascii_digit (b : Nat) : Bool :=
  decide (48 ≤ b) && decide (b ≤ 57)

/-- `next_byte` of `integer.rs` lines 146-167: reads the next byte from the
source.  `rest` is the unread part of the input, `fin` how the source ends
after it; `consumed` and `out` are the bytes already consumed and written,
from which the diagnostic contexts are built.  End-of-stream becomes
`unexpectedEndOfInputParsingInteger`; any other read failure is wrapped as
`ioFailure`. -/
def next_byte (rest : List Nat) (fin : ReadEnd) (consumed out : List Nat) :
    Except Error Nat :=
  match rest with
  | b :: _ => .ok b
  | [] =>
    match fin with
    | .eof =>
      .error (.unexpectedEndOfInputParsingInteger
        ⟨none, consumed.length, consumed⟩
        ⟨none, out.length, out⟩)
    | .ioError e => .error (.ioFailure e)

/-- The loop body of `parse` in `integer.rs` lines 38-138, one constructor
argument per piece of loop state: automaton state, `first_digit_is_zero`
flag, unread input, end event, bytes consumed so far (for the read-side
diagnostics; the input byte counter is their length) and bytes written so
far (the sink).  The `next_byte` call is inlined: an empty `rest` produces
exactly the error `next_byte` returns.  The returned pair is the `Result`
of `parse` together with the final sink contents. -/
def parseLoop : StateExpecting → Bool → List Nat → ReadEnd → List Nat → List Nat →
    Except Error Unit × List Nat
  | _, _, [], fin, consumed, out =>
    (match fin with
     | .eof =>
       (.error (.unexpectedEndOfInputParsingInteger
         ⟨none, consumed.length, consumed⟩
         ⟨none, out.length, out⟩))
     | .ioError e => .error (.ioFailure e), out)
  | state, first_digit_is_zero, b :: rest, fin, consumed, out =>
    match state with
    | .start =>
      -- Discard the 'i' byte
      parseLoop .digitOrSign first_digit_is_zero rest fin (consumed ++ [b]) out
    | .digitOrSign =>
      if b = 45 then
        parseLoop .digitAfterSign first_digit_is_zero rest fin (consumed ++ [b])
          (out ++ [b])
      else if is_ascii_digit b then
        parseLoop .digitOrEnd (if b = 48 then true else first_digit_is_zero)
          rest fin (consumed ++ [b]) (out ++ [b])
      else
        (.error (.unexpectedByteParsingInteger
          ⟨some b, (consumed ++ [b]).length, consumed ++ [b]⟩
          ⟨some b, out.length, out⟩), out)
    | .digitAfterSign =>
      if is_ascii_digit b then
        parseLoop .digitOrEnd (if b = 48 then true else first_digit_is_zero)
          rest fin (consumed ++ [b]) (out ++ [b])
      else
        (.error (.unexpectedByteParsingInteger
          ⟨some b, (consumed ++ [b]).length, consumed ++ [b]⟩
          ⟨some b, out.length, out⟩), out)
    | .digitOrEnd =>
      if is_ascii_digit b then
        -- the byte is written before the leading-zero check (lines 102-117)
        if b = 48 && first_digit_is_zero then
          (.error (.leadingZerosInIntegersNotAllowed
            ⟨some b, (consumed ++ [b]).length, consumed ++ [b]⟩
            ⟨some b, (out ++ [b]).length, out ++ [b]⟩), out ++ [b])
        else
          parseLoop .digitOrEnd first_digit_is_zero rest fin (consumed ++ [b])
            (out ++ [b])
      else if b = BENCODE_END_INTEGER then
        (.ok (), out)
      else
        (.error (.unexpectedByteParsingInteger
          ⟨some b, (consumed ++ [b]).length, consumed ++ [b]⟩
          ⟨some b, out.length, out⟩), out)

/-- `parse` of `integer.rs` lines 34-139 on a whole input: state `Start`,
flag cleared, nothing consumed, empty sink. -/
def parse (input : List Nat) (fin : ReadEnd) : Except Error Unit × List Nat :=
  parseLoop .start false input fin [] []

/-- Fuel-indexed variant of `parseLoop`: each loop iteration spends one
unit of fuel, and exhausted fuel yields `none`.  Used to state that the
loop of `parse` terminates within `input.length + 1` iterations. -/
def parseLoopF : Nat → StateExpecting → Bool → List Nat → ReadEnd → List Nat →
    List Nat → Option (Except Error Unit × List Nat)
  | 0, _, _, _, _, _, _ => none
  | _ + 1, _, _, [], fin, consumed, out =>
    some
      (match fin with
       | .eof =>
         (.error (.unexpectedEndOfInputParsingInteger
           ⟨none, consumed.length, consumed⟩
           ⟨none, out.length, out⟩))
       | .ioError e => .error (.ioFailure e), out)
  | fuel + 1, state, first_digit_is_zero, b :: rest, fin, consumed, out =>
    match state with
    | .start =>
      parseLoopF fuel .digitOrSign first_digit_is_zero rest fin (consumed ++ [b]) out
    | .digitOrSign =>
      if b = 45 then
        parseLoopF fuel .digitAfterSign first_digit_is_zero rest fin
          (consumed ++ [b]) (out ++ [b])
      else if is_ascii_digit b then
        parseLoopF fuel .digitOrEnd (if b = 48 then true else first_digit_is_zero)
          rest fin (consumed ++ [b]) (out ++ [b])
      else
        some (.error (.unexpectedByteParsingInteger
          ⟨some b, (consumed ++ [b]).length, consumed ++ [b]⟩
          ⟨some b, out.length, out⟩), out)
    | .digitAfterSign =>
      if is_ascii_digit b then
        parseLoopF fuel .digitOrEnd (if b = 48 then true else first_digit_is_zero)
          rest fin (consumed ++ [b]) (out ++ [b])
      else
        some (.error (.unexpectedByteParsingInteger
          ⟨some b, (consumed ++ [b]).length, consumed ++ [b]⟩
          ⟨some b, out.length, out⟩), out)
    | .digitOrEnd =>
      if is_ascii_digit b then
        if b = 48 && first_digit_is_zero then
          some (.error (.leadingZerosInIntegersNotAllowed
            ⟨some b, (consumed ++ [b]).length, consumed ++ [b]⟩
            ⟨some b, (out ++ [b]).length, out ++ [b]⟩), out ++ [b])
        else
          parseLoopF fuel .digitOrEnd first_digit_is_zero rest fin
            (consumed ++ [b]) (out ++ [b])
      else if b = BENCODE_END_INTEGER then
        some (.ok (), out)
      else
        some (.error (.unexpectedByteParsingInteger
          ⟨some b, (consumed ++ [b]).length, consumed ++ [b]⟩
          ⟨some b, out.length, out⟩), out)

/-- A nonempty all-digit byte run. -/
def validDigitRun (ds : List Nat) : Bool :=
  !ds.isEmpty && ds.all is_ascii_digit

/-- The sign/digit runs the claims call syntactically valid without illegal
leading zeros: either a digit run whose first digit is `0` only when the
run is exactly `0`, or a minus sign followed by a digit run that does not
start with `0`. -/
def validIntRun (s : List Nat) : Bool :=
  if s.head? = some 45 then
    validDigitRun s.tail && s.tail.head? != some 48
  else
    validDigitRun s && (s.head? != some 48 || s == [48])

/-- Value of an all-digit run, accumulator style: `v` is the value of the
digits already read. -/
def digitsValAux : List Nat → Nat → Nat
  | [], v => v
  | b :: bs, v => digitsValAux bs (v * 10 + (b - 48))

/-- Numeric value of an ASCII digit run. -/
def digitsVal (ds : List Nat) : Nat := digitsValAux ds 0

/-- Integer denoted by a sign/digit run: a leading `45` (minus) negates the
value of the remaining digits. -/
def runVal (s : List Nat) : Int :=
  if s.head? = some 45 then -(digitsVal s.tail : Int) else (digitsVal s : Int)

/-- ASCII digits of a natural number, most significant first, prepended to
`acc`. -/
def natDecAux (n : Nat) (acc : List Nat) : List Nat :=
  if n < 10 then (48 + n) :: acc
  else natDecAux (n / 10) ((48 + n % 10) :: acc)
termination_by n
decreasing_by omega

/-- Minimal ASCII decimal representation of a natural number. -/
def natDec (n : Nat) : List Nat := natDecAux n []

/-- Minimal ASCII decimal representation of an integer: an optional minus
sign followed by the digits of the absolute value, no leading zeros. -/
def minDecRep (n : Int) : List Nat :=
  if n < 0 then 45 :: natDec n.natAbs else natDec n.toNat

/-- Reading past the last byte with the source at end-of-stream yields the
`unexpectedEndOfInputParsingInteger` error, with both diagnostic snapshots
frozen at the failure point. -/
theorem parseLoop_nil_eof (st : StateExpecting) (flag : Bool) (consumed out : List Nat) :
    parseLoop st flag [] ReadEnd.eof consumed out
      = (.error (.unexpectedEndOfInputParsingInteger
          ⟨none, consumed.length, consumed⟩ ⟨none, out.length, out⟩), out) := rfl

/-- Reading past the last byte with the source failing with a non-eof I/O
error propagates that error wrapped as `ioFailure`. -/
theorem parseLoop_nil_ioError (st : StateExpecting) (flag : Bool) (consumed out : List Nat)
    (e : Nat) :
    parseLoop st flag [] (ReadEnd.ioError e) consumed out = (.error (.ioFailure e), out) := rfl

/-- In state `DigitOrEnd` with the zero-flag clear, a digit run followed by
the terminator is consumed successfully and copied verbatim to the sink. -/
theorem parseLoop_digitOrEnd_run (rest : List Nat) (h : ∀ b ∈ rest, is_ascii_digit b = true) :
    ∀ (fin : ReadEnd) (consumed out : List Nat),
      parseLoop .digitOrEnd false (rest ++ [101]) fin consumed out = (.ok (), out ++ rest) := by
  induction rest with
  | nil =>
    intro fin consumed out
    simp [parseLoop, is_ascii_digit, BENCODE_END_INTEGER]
  | cons b bs ih =>
    intro fin consumed out
    have hb : is_ascii_digit b = true := h b (by simp)
    have hbs : ∀ x ∈ bs, is_ascii_digit x = true := fun x hx => h x (by simp [hx])
    simp only [List.cons_append, parseLoop, hb, Bool.and_false, Bool.false_eq_true, if_false,
      List.append_eq, if_true]
    rw [ih hbs]
    simp

/-- Structure of a valid run starting with the minus sign: a nonzero first
digit followed by digits. -/
theorem validIntRun_neg (s : List Nat) (h : validIntRun s = true) (hh : s.head? = some 45) :
    ∃ d rest, s = 45 :: d :: rest ∧ is_ascii_digit d = true ∧ d ≠ 48 ∧
      ∀ b ∈ rest, is_ascii_digit b = true := by
  cases s with
  | nil => simp at hh
  | cons a t =>
    have ha : a = 45 := by simpa using hh
    subst ha
    cases t with
    | nil => exact absurd h (by decide)
    | cons d rest =>
      simp only [validIntRun, List.head?_cons, List.tail_cons, validDigitRun, List.isEmpty_cons,
        Bool.not_false, Bool.true_and, List.all_cons, if_pos, Bool.and_eq_true, List.all_eq_true,
        bne_iff_ne, ne_eq, Option.some.injEq] at h
      obtain ⟨⟨hd, hall⟩, hd48⟩ := h
      exact ⟨d, rest, rfl, hd, hd48, hall⟩

/-- Structure of a valid unsigned run: either exactly the digit `0`, or a
nonzero first digit followed by digits. -/
theorem validIntRun_pos (s : List Nat) (h : validIntRun s = true) (hh : s.head? ≠ some 45) :
    s = [48] ∨ ∃ d rest, s = d :: rest ∧ is_ascii_digit d = true ∧ d ≠ 48 ∧
      ∀ b ∈ rest, is_ascii_digit b = true := by
  rw [validIntRun, if_neg hh] at h
  cases s with
  | nil => exact absurd h (by decide)
  | cons d rest =>
    simp only [validDigitRun, List.isEmpty_cons, Bool.not_false, Bool.true_and, List.all_cons,
      Bool.and_eq_true, List.all_eq_true, Bool.or_eq_true, bne_iff_ne, ne_eq, Option.some.injEq,
      List.head?_cons, beq_iff_eq] at h
    obtain ⟨⟨hd, hall⟩, hzero⟩ := h
    by_cases hd48 : d = 48
    · left
      rcases hzero with hz | hz
      · exact absurd hd48 hz
      · exact hz
    · right
      exact ⟨d, rest, rfl, hd, hd48, hall⟩

/-- From state `DigitOrSign` with the zero-flag clear, any valid sign/digit
run followed by the terminator is consumed successfully and copied verbatim
to the sink, whatever was consumed or written before. -/
theorem parseLoop_digitOrSign_valid (s : List Nat) (h : validIntRun s = true)
    (fin : ReadEnd) (consumed out : List Nat) :
    parseLoop .digitOrSign false (s ++ [101]) fin consumed out = (.ok (), out ++ s) := by
  by_cases hh : s.head? = some 45
  · obtain ⟨d, rest, rfl, hd, hd48, hrest⟩ := validIntRun_neg s h hh
    simp only [List.cons_append, parseLoop, if_pos rfl, hd, if_true, if_neg hd48,
      List.append_eq]
    rw [parseLoop_digitOrEnd_run rest hrest]
    simp
  · rcases validIntRun_pos s h hh with rfl | ⟨d, rest, rfl, hd, hd48, hrest⟩
    · simp [parseLoop, is_ascii_digit, BENCODE_END_INTEGER]
    · have h45 : d ≠ 45 := by
        intro hc
        exact hh (by simp [hc])
      simp only [List.cons_append, parseLoop, if_neg h45, hd, if_true, if_neg hd48,
        List.append_eq]
      rw [parseLoop_digitOrEnd_run rest hrest]
      simp

/-- Unfolding `natDecAux` on a single digit. -/
theorem natDecAux_small (n : Nat) (acc : List Nat) (h : n < 10) :
    natDecAux n acc = (48 + n) :: acc := by
  rw [natDecAux]
  simp [h]

/-- Unfolding `natDecAux` once: peel the least significant digit. -/
theorem natDecAux_step (v d : Nat) (acc : List Nat) (hv : 1 ≤ v) (hd : d < 10) :
    natDecAux (v * 10 + d) acc = natDecAux v ((48 + d) :: acc) := by
  have h1 : ¬ (v * 10 + d < 10) := by omega
  have h2 : (v * 10 + d) / 10 = v := by omega
  have h3 : (v * 10 + d) % 10 = d := by omega
  rw [natDecAux]
  simp only [h1, if_false, h2, h3]

/-- The accumulated digit value never drops below the accumulator. -/
theorem digitsValAux_le (ds : List Nat) : ∀ v : Nat, v ≤ digitsValAux ds v := by
  induction ds with
  | nil => intro v; simp [digitsValAux]
  | cons b bs ih =>
    intro v
    simp only [digitsValAux]
    exact le_trans (by omega) (ih (v * 10 + (b - 48)))

/-- Round trip between digit values and digit lists, accumulator form:
turning digits into a value and back prepends exactly those digits. -/
theorem natDecAux_digitsValAux (ds : List Nat) :
    (∀ b ∈ ds, is_ascii_digit b = true) →
    ∀ (v : Nat) (acc : List Nat), 1 ≤ v →
      natDecAux (digitsValAux ds v) acc = natDecAux v (ds ++ acc) := by
  induction ds with
  | nil => intro _ v acc _; simp [digitsValAux]
  | cons b bs ih =>
    intro h v acc hv
    have hb : 48 ≤ b ∧ b ≤ 57 := by simpa [is_ascii_digit] using h b (by simp)
    simp only [digitsValAux]
    rw [ih (fun x hx => h x (by simp [hx])) (v * 10 + (b - 48)) acc (by omega)]
    rw [natDecAux_step v (b - 48) _ hv (by omega)]
    have hb48 : 48 + (b - 48) = b := by omega
    rw [hb48]
    simp

/-- A digit run with nonzero first digit is recovered verbatim from its
numeric value. -/
theorem natDec_digits (d : Nat) (rest : List Nat) (hd : is_ascii_digit d = true) (hd48 : d ≠ 48)
    (hrest : ∀ b ∈ rest, is_ascii_digit b = true) :
    natDec (digitsVal (d :: rest)) = d :: rest := by
  have hb : 48 ≤ d ∧ d ≤ 57 := by simpa [is_ascii_digit] using hd
  have h1 : digitsVal (d :: rest) = digitsValAux rest (d - 48) := by
    simp [digitsVal, digitsValAux]
  rw [natDec, h1, natDecAux_digitsValAux rest hrest (d - 48) [] (by omega)]
  rw [natDecAux_small (d - 48) _ (by omega)]
  have h2 : 48 + (d - 48) = d := by omega
  rw [h2]
  simp

/-- A digit run with nonzero first digit has positive value. -/
theorem digitsVal_pos (d : Nat) (rest : List Nat) (hd : is_ascii_digit d = true)
    (hd48 : d ≠ 48) : 1 ≤ digitsVal (d :: rest) := by
  have hb : 48 ≤ d ∧ d ≤ 57 := by simpa [is_ascii_digit] using hd
  have h1 : digitsVal (d :: rest) = digitsValAux rest (d - 48) := by
    simp [digitsVal, digitsValAux]
  rw [h1]
  exact le_trans (by omega) (digitsValAux_le rest (d - 48))

/-- Every valid sign/digit run is the minimal decimal representation of the
integer it denotes. -/
theorem minDecRep_runVal (s : List Nat) (h : validIntRun s = true) :
    s = minDecRep (runVal s) := by
  by_cases hh : s.head? = some 45
  · obtain ⟨d, rest, rfl, hd, hd48, hrest⟩ := validIntRun_neg s h hh
    have hpos : 1 ≤ digitsVal (d :: rest) := digitsVal_pos d rest hd hd48
    have hrv : runVal (45 :: d :: rest) = -(digitsVal (d :: rest) : Int) := by
      simp [runVal]
    rw [hrv, minDecRep, if_pos (by omega)]
    have habs : (-((digitsVal (d :: rest) : Nat) : Int)).natAbs = digitsVal (d :: rest) := by
      simp
    rw [habs, natDec_digits d rest hd hd48 hrest]
  · rcases validIntRun_pos s h hh with rfl | ⟨d, rest, rfl, hd, hd48, hrest⟩
    · have hrv : runVal [48] = 0 := by decide
      have h0 : minDecRep 0 = [48] := by
        rw [minDecRep, if_neg (by omega)]
        rw [show (0 : Int).toNat = 0 from rfl, natDec, natDecAux_small 0 [] (by omega)]
      rw [hrv, h0]
    · have h45 : d ≠ 45 := fun hc => hh (by simp [hc])
      have hrv : runVal (d :: rest) = (digitsVal (d :: rest) : Int) := by
        simp [runVal, h45]
      rw [hrv, minDecRep, if_neg (by omega)]
      rw [show ((digitsVal (d :: rest) : Nat) : Int).toNat = digitsVal (d :: rest) by simp]
      rw [natDec_digits d rest hd hd48 hrest]

/-- The fueled loop computes the same answer as the loop itself whenever
the fuel exceeds the number of remaining input bytes: each iteration
consumes exactly one byte, so `length + 1` iterations always suffice. -/
theorem parseLoopF_complete (input : List Nat) :
    ∀ (fuel : Nat) (st : StateExpecting) (flag : Bool) (fin : ReadEnd) (consumed out : List Nat),
      input.length < fuel →
      parseLoopF fuel st flag input fin consumed out
        = some (parseLoop st flag input fin consumed out) := by
  induction input with
  | nil =>
    intro fuel st flag fin consumed out hf
    cases fuel with
    | zero => omega
    | succ f => cases fin <;> rfl
  | cons b rest ih =>
    intro fuel st flag fin consumed out hf
    cases fuel with
    | zero => simp at hf
    | succ f =>
      have hr : rest.length < f := by simpa using hf
      cases st <;> simp only [parseLoopF, parseLoop] <;>
        first
          | exact ih f _ _ fin _ _ hr
          | (split_ifs <;>
              first
                | rfl
                | exact ih f _ _ fin _ _ hr)

/-- C1: the claim states that in `DigitOrEnd` any further ASCII digit with
the first-digit-is-zero flag set raises `leadingZerosInIntegersNotAllowed`,
so that `i01e` is rejected.  The code checks `char == '0' &&
first_digit_is_zero` (`integer.rs` line 104), raising the error only when
the further digit is itself `0`: evaluating the decoder at the failing
input `i01e` (bytes 105, 48, 49, 101) yields success with output `01`. -/
theorem i01e_accepted_with_leading_zero :
    parse [105, 48, 49, 101] ReadEnd.eof = (.ok (), [48, 49]) := rfl

/-- C2 (counterexample): on `i00e` the decoder raises
`leadingZerosInIntegersNotAllowed`, yet the sink holds both zero digits
`[48, 48]`, not just the first one — so the failing transition did write
the offending digit byte and the sink state did change. -/
theorem leading_zero_error_sink_changed_cex :
    resultIs Error.isLeadingZeros (parse [105, 48, 48, 101] ReadEnd.eof).1 = true ∧
    (parse [105, 48, 48, 101] ReadEnd.eof).2 = [48, 48] ∧
    (parse [105, 48, 48, 101] ReadEnd.eof).2 ≠ [48] := by
  refine ⟨rfl, rfl, ?_⟩
  decide

/-- C2 (amended): whenever the decoder raises
`leadingZerosInIntegersNotAllowed` in state `DigitOrEnd` — the flag is set
and the incoming byte is the digit `0` — the error is raised after the
offending digit byte is emitted: the sink receives exactly that byte
during the failing transition, and the write-side snapshot records it. -/
theorem leading_zero_error_after_emission (rest : List Nat) (fin : ReadEnd)
    (consumed out : List Nat) :
    parseLoop .digitOrEnd true (48 :: rest) fin consumed out
      = (.error (.leadingZerosInIntegersNotAllowed
          ⟨some 48, (consumed ++ [48]).length, consumed ++ [48]⟩
          ⟨some 48, (out ++ [48]).length, out ++ [48]⟩), out ++ [48]) := rfl

/-- C3: for every syntactically valid bencoded integer `i<N>e` without
illegal leading zeros, `parse` succeeds, the sink receives exactly the
ASCII sign/digit bytes between the markers verbatim, and that byte run is
the minimal decimal representation of the denoted integer `N`. -/
theorem valid_integer_verbatim_minimal (s : List Nat) (fin : ReadEnd)
    (h : validIntRun s = true) :
    parse (105 :: (s ++ [101])) fin = (.ok (), s) ∧ s = minDecRep (runVal s) := by
  constructor
  · show parseLoop .start false (105 :: (s ++ [101])) fin [] [] = (.ok (), s)
    simp only [parseLoop]
    rw [parseLoop_digitOrSign_valid s h]
    simp
  · exact minDecRep_runVal s h

/-- Witness for C3 at the input `i-1e`. -/
theorem valid_integer_verbatim_minimal_witness :
    validIntRun [45, 49] = true ∧
    (parse (105 :: ([45, 49] ++ [101])) ReadEnd.eof = (.ok (), [45, 49]) ∧
      [45, 49] = minDecRep (runVal [45, 49])) :=
  ⟨by decide, valid_integer_verbatim_minimal [45, 49] ReadEnd.eof (by decide)⟩

/-- C4: on `i-0e` the decoder succeeds and emits the bytes `-0`; moreover
the sign transition in `DigitOrSign` passes the flag through unchanged —
it does not itself raise the first-digit-is-zero flag. -/
theorem minus_zero_accepted :
    parse [105, 45, 48, 101] ReadEnd.eof = (.ok (), [45, 48]) ∧
    ∀ (flag : Bool) (rest : List Nat) (fin : ReadEnd) (consumed out : List Nat),
      parseLoop .digitOrSign flag (45 :: rest) fin consumed out
        = parseLoop .digitAfterSign flag rest fin (consumed ++ [45]) (out ++ [45]) :=
  ⟨rfl, fun _ _ _ _ _ => rfl⟩

/-- C5: both `i00e` and `i-00e` fail with
`leadingZerosInIntegersNotAllowed`. -/
theorem double_zero_rejected :
    resultIs Error.isLeadingZeros (parse [105, 48, 48, 101] ReadEnd.eof).1 = true ∧
    resultIs Error.isLeadingZeros (parse [105, 45, 48, 48, 101] ReadEnd.eof).1 = true := by
  decide

/-- C6: end-of-stream in any non-terminal automaton state yields
`unexpectedEndOfInputParsingInteger`: `next_byte` converts the eof outcome
into that error, the loop returns it unchanged from every state, and in
particular `i42` with no terminator fails with it. -/
theorem eof_yields_unexpected_end_of_input :
    (∀ (consumed out : List Nat),
      next_byte [] ReadEnd.eof consumed out
        = .error (.unexpectedEndOfInputParsingInteger
            ⟨none, consumed.length, consumed⟩ ⟨none, out.length, out⟩)) ∧
    (∀ (st : StateExpecting) (flag : Bool) (consumed out : List Nat),
      parseLoop st flag [] ReadEnd.eof consumed out
        = (.error (.unexpectedEndOfInputParsingInteger
            ⟨none, consumed.length, consumed⟩ ⟨none, out.length, out⟩), out)) ∧
    parse [105, 52, 50] ReadEnd.eof
      = (.error (.unexpectedEndOfInputParsingInteger
          ⟨none, 3, [105, 52, 50]⟩ ⟨none, 2, [52, 50]⟩), [52, 50]) :=
  ⟨fun _ _ => rfl, fun _ _ _ _ => rfl, rfl⟩

/-- C7: a byte that is not legal for the current automaton state — not a
digit or the sign in `DigitOrSign`, not a digit in `DigitAfterSign`, not a
digit or the terminator in `DigitOrEnd` — makes the decoder fail with
`unexpectedByteParsingInteger`; each state carries exactly its own
legality condition, and in particular `ia`, `i-a` and `i-1a` all fail with
it. -/
theorem illegal_byte_rejected (b : Nat) (rest : List Nat) (fin : ReadEnd) (flag : Bool)
    (consumed out : List Nat) (hd : is_ascii_digit b = false) :
    (b ≠ 45 →
      resultIs Error.isUnexpectedByte
        (parseLoop .digitOrSign flag (b :: rest) fin consumed out).1 = true) ∧
    resultIs Error.isUnexpectedByte
      (parseLoop .digitAfterSign flag (b :: rest) fin consumed out).1 = true ∧
    (b ≠ 101 →
      resultIs Error.isUnexpectedByte
        (parseLoop .digitOrEnd flag (b :: rest) fin consumed out).1 = true) ∧
    resultIs Error.isUnexpectedByte (parse [105, 97] ReadEnd.eof).1 = true ∧
    resultIs Error.isUnexpectedByte (parse [105, 45, 97] ReadEnd.eof).1 = true ∧
    resultIs Error.isUnexpectedByte (parse [105, 45, 49, 97] ReadEnd.eof).1 = true := by
  refine ⟨fun h45 => ?_, ?_, fun h101 => ?_, rfl, rfl, rfl⟩
  · simp [parseLoop, hd, h45, resultIs, Error.isUnexpectedByte]
  · simp [parseLoop, hd, resultIs, Error.isUnexpectedByte]
  · simp [parseLoop, hd, h101, BENCODE_END_INTEGER, resultIs, Error.isUnexpectedByte]

/-- Witness for C7 at the byte `a` (97) in each state, discharging the
per-state hypotheses there. -/
theorem illegal_byte_rejected_witness :
    is_ascii_digit 97 = false ∧ (97 : Nat) ≠ 45 ∧ (97 : Nat) ≠ 101 ∧
    (resultIs Error.isUnexpectedByte
      (parseLoop .digitOrSign false [97] ReadEnd.eof [] []).1 = true ∧
    resultIs Error.isUnexpectedByte
      (parseLoop .digitAfterSign false [97] ReadEnd.eof [] []).1 = true ∧
    resultIs Error.isUnexpectedByte
      (parseLoop .digitOrEnd false [97] ReadEnd.eof [] []).1 = true ∧
    resultIs Error.isUnexpectedByte (parse [105, 97] ReadEnd.eof).1 = true ∧
    resultIs Error.isUnexpectedByte (parse [105, 45, 97] ReadEnd.eof).1 = true ∧
    resultIs Error.isUnexpectedByte (parse [105, 45, 49, 97] ReadEnd.eof).1 = true) :=
  ⟨by decide, by decide, by decide,
    (illegal_byte_rejected 97 [] ReadEnd.eof false [] [] (by decide)).1 (by decide),
    (illegal_byte_rejected 97 [] ReadEnd.eof false [] [] (by decide)).2.1,
    (illegal_byte_rejected 97 [] ReadEnd.eof false [] [] (by decide)).2.2.1 (by decide),
    (illegal_byte_rejected 97 [] ReadEnd.eof false [] [] (by decide)).2.2.2.1,
    (illegal_byte_rejected 97 [] ReadEnd.eof false [] [] (by decide)).2.2.2.2.1,
    (illegal_byte_rejected 97 [] ReadEnd.eof false [] [] (by decide)).2.2.2.2.2⟩

/-- C8: a non-eof read failure of the byte source is propagated by the
decoder as the `ioFailure` (`Error::Io`) variant wrapping the underlying
failure, never as any grammar error: `next_byte` wraps it, and the loop
returns exactly that wrapped error from every state. -/
theorem read_failure_surfaces_as_io_variant :
    (∀ (consumed out : List Nat) (e : Nat),
      next_byte [] (ReadEnd.ioError e) consumed out = .error (.ioFailure e)) ∧
    ∀ (st : StateExpecting) (flag : Bool) (consumed out : List Nat) (e : Nat),
      parseLoop st flag [] (ReadEnd.ioError e) consumed out
        = (.error (.ioFailure e), out) :=
  ⟨fun _ _ _ => rfl, fun _ _ _ _ _ => rfl⟩

/-- C9: the decoder terminates on every finite input: the fueled loop,
which spends one unit of fuel per consumed byte, already returns the
answer of `parse` with `input.length + 1` units of fuel, for every input
and every way the source ends. -/
theorem parse_terminates (input : List Nat) (fin : ReadEnd) :
    parseLoopF (input.length + 1) .start false input fin [] []
      = some (parse input fin) :=
  parseLoopF_complete input (input.length + 1) .start false fin [] [] (by omega)

/-- C10: the `Start` state discards the first byte without inspecting it:
any byte followed by a valid sign/digit run and the terminator decodes
exactly as if the opening marker were `i`, with the same result and the
same output. -/
theorem start_state_discards_marker (b : Nat) (s : List Nat) (fin : ReadEnd)
    (h : validIntRun s = true) :
    parse (b :: (s ++ [101])) fin = parse (105 :: (s ++ [101])) fin ∧
    parse (b :: (s ++ [101])) fin = (.ok (), s) := by
  have hgen : ∀ c : Nat, parse (c :: (s ++ [101])) fin = (.ok (), s) := by
    intro c
    show parseLoop .start false (c :: (s ++ [101])) fin [] [] = (.ok (), s)
    simp only [parseLoop]
    rw [parseLoop_digitOrSign_valid s h]
    simp
  exact ⟨(hgen b).trans (hgen 105).symm, hgen b⟩

/-- Witness for C10 at the input `x42e` (marker byte 120). -/
theorem start_state_discards_marker_witness :
    validIntRun [52, 50] = true ∧
    (parse (120 :: ([52, 50] ++ [101])) ReadEnd.eof
        = parse (105 :: ([52, 50] ++ [101])) ReadEnd.eof ∧
      parse (120 :: ([52, 50] ++ [101])) ReadEnd.eof = (.ok (), [52, 50])) :=
  ⟨by decide, start_state_discards_marker 120 [52, 50] ReadEnd.eof (by decide)⟩

end Bencode
